import Mathlib

/-!
Shallow embedding, in Lean 4, of the ticker-universe normalizer / differ /
sync code of the repository `us-stock-data-in-korean`:

* `src/financialdatapy/cik.py` — `get_cik` (the Normalizer) and `search_cik`;
* `src/scripts/main.py` — the sync pipeline;
* `src/scripts/connect.py` — `connect_db`;
* `src/financialdatapy/market.py` — `Market` dispatch.

Pandas dataframes are modelled as Lean lists of records, column operations as
list maps/filters in the exact order the source applies them.  Python strings
of interest are ASCII, so `str.upper` / `str.lower` / `string.capwords` are
modelled on ASCII characters.  The regular expression
`\s?(\/|\\)[a-zA-Z]*` used with `re.sub` is modelled by a left-to-right
scanner with the same leftmost-match, greedy semantics.
-/

/-- ASCII uppercase of one character, as Python `str.upper` acts on ASCII. -/
def charUpper (c : Char) : Char :=
  if 97 ≤ c.toNat ∧ c.toNat ≤ 122 then Char.ofNat (c.toNat - 32) else c

/-- ASCII lowercase of one character, as Python `str.lower` acts on ASCII. -/
def charLower (c : Char) : Char :=
  if 65 ≤ c.toNat ∧ c.toNat ≤ 90 then Char.ofNat (c.toNat + 32) else c

/-- Python `str.upper` on an ASCII string. -/
def strUpper (s : String) : String :=
  String.mk (s.data.map charUpper)

/-- The character class `\s` of Python's `re` module, ASCII part:
space, tab, newline, carriage return, vertical tab, form feed. -/
def wsChar (c : Char) : Bool :=
  c = ' ' || c = '\t' || c = '\n' || c = '\r' || c = '\x0b' || c = '\x0c'

/-- The character class `[a-zA-Z]` of the name-cleaning pattern. -/
def asciiLetter (c : Char) : Bool :=
  (65 ≤ c.toNat && c.toNat ≤ 90) || (97 ≤ c.toNat && c.toNat ≤ 122)

/-- The alternative `(\/|\\)` of the name-cleaning pattern. -/
def slashChar (c : Char) : Bool :=
  c = '/' || c = '\\'

/-- Greedy `[a-zA-Z]*`: drop the maximal run of ASCII letters. -/
def dropLetters (l : List Char) : List Char :=
  l.dropWhile asciiLetter

/-- `re.compile(r'\s?(\/|\\)[a-zA-Z]*').sub('', ·)` on a list of characters:
scan left to right; at each position try to match one optional `\s`
character, then `/` or `\`, then a greedy run of letters; a match is deleted
and scanning resumes after it, otherwise the character is kept.
(`re.I` is irrelevant: the pattern already covers both letter cases.)
The first argument bounds the recursion depth so the recursion is
structural; every step consumes at least one character, so with the
character count as the bound (see `regexSubChars`) the bound is never
exhausted and the `0` case is dead code. -/
def regexSubGo : Nat → List Char → List Char
  | _, [] => []
  | 0, l => l
  | Nat.succ fuel, c :: rest =>
    if slashChar c then regexSubGo fuel (dropLetters rest)
    else if wsChar c then
      match rest with
      | [] => [c]
      | d :: rest2 =>
        if slashChar d then regexSubGo fuel (dropLetters rest2)
        else c :: regexSubGo fuel (d :: rest2)
    else c :: regexSubGo fuel rest

/-- The name-cleaning substitution `re.sub` on a list of characters. -/
def regexSubChars (l : List Char) : List Char :=
  regexSubGo l.length l

/-- The name-cleaning substitution on a string. -/
def regexSubName (s : String) : String :=
  String.mk (regexSubChars s.data)

/-- Python `str.split()` (no argument): split into maximal runs of
non-whitespace characters, discarding all whitespace. -/
def splitWords : List Char → List Char → List (List Char)
  | [], acc => if acc.isEmpty then [] else [acc.reverse]
  | c :: rest, acc =>
    if wsChar c then
      if acc.isEmpty then splitWords rest [] else acc.reverse :: splitWords rest []
    else splitWords rest (c :: acc)

/-- Python `str.capitalize` on a word: first character uppercased, the rest
lowercased. -/
def capitalizeWord : List Char → List Char
  | [] => []
  | c :: rest => charUpper c :: rest.map charLower

/-- `string.capwords`: split on whitespace, capitalize each word, join with
single spaces (leading/trailing/repeated whitespace is collapsed). -/
def capwords (s : String) : String :=
  String.mk (List.intercalate [' '] ((splitWords s.data []).map capitalizeWord))

/-- A raw registry record as decoded from the SEC JSON payload
(`fields = ["cik","name","ticker","exchange"]`), every field present. -/
structure RawRecord where
  cik : Nat
  name : String
  ticker : String
  exchange : String
deriving DecidableEq, Repr

/-- A normalized row of the dataframe returned by `get_cik`: the `exchange`
column has been dropped and `cik` has been cast to a string. -/
structure StockRecord where
  cik : String
  name : String
  ticker : String
deriving DecidableEq, Repr

/-- Embeds `get_cik` of `src/financialdatapy/cik.py` (the HTTP fetch is
abstracted: the decoded batch is the argument).  The column steps in source
order: uppercase the `exchange` column; keep only rows whose exchange is
`NASDAQ` or `NYSE`; reset the index (a no-op on lists); drop the `exchange`
column while casting `cik` to `str`; apply the name regex substitution; put
names in title case with `capwords`. -/
def get_cik (batch : List RawRecord) : List StockRecord :=
  let step1 := batch.map (fun r => { r with exchange := strUpper r.exchange })
  let step2 := step1.filter (fun r => r.exchange == "NASDAQ" || r.exchange == "NYSE")
  let step3 := step2.map (fun r =>
    ({ cik := toString r.cik, name := r.name, ticker := r.ticker } : StockRecord))
  let step4 := step3.map (fun r => { r with name := regexSubName r.name })
  step4.map (fun r => { r with name := capwords r.name })

/-- Embeds `search_cik` of `src/financialdatapy/cik.py`.  `ticker_df.get('cik').item()`
raises `ValueError` unless the filtered frame has exactly one row, modelled
as `none`; Python's `'0' * zeros` with a negative `zeros` is `''`, matching
truncated `Nat` subtraction. -/
def search_cik (cik_list : List StockRecord) (ticker : String) : Option String :=
  let t := strUpper ticker
  let ticker_df := cik_list.filter (fun r => r.ticker == t)
  match ticker_df with
  | [r] =>
    let zeros := 10 - r.cik.length
    some (String.mk (List.replicate zeros '0') ++ r.cik)
  | _ => none

/-- The exchange allow-list test as `get_cik` effectively applies it to a raw
record: the uppercased exchange must be `NASDAQ` or `NYSE`. -/
def rawAllowed (r : RawRecord) : Bool :=
  strUpper r.exchange == "NASDAQ" || strUpper r.exchange == "NYSE"

/-- The per-record shape transformation `get_cik` applies to a surviving row:
`cik` cast to string, name regex-cleaned then title-cased, ticker untouched,
exchange dropped. -/
def normRecord (r : RawRecord) : StockRecord :=
  { cik := toString r.cik
    name := capwords (regexSubName r.name)
    ticker := r.ticker }

/-- A changeset between two stock lists: spec section 3. -/
structure Changeset where
  added : List StockRecord
  removed : List StockRecord
  changed : List (StockRecord × StockRecord)
deriving DecidableEq, Repr

/-- Modelled from the spec: `stocklist.check_diff`, called by
`src/scripts/main.py`, lives in `stocklist.py`, which is not under `src/`.
Spec section 4.2: `added` = latest records whose ticker has no match in
prior; `removed` = prior records whose ticker has no match in latest;
`changed` = ticker-matched pairs whose `cik` or `name` differs, matched
ticker-first. -/
def check_diff (prior latest : List StockRecord) : Changeset :=
  { added := latest.filter (fun r => !(prior.any (fun p => p.ticker == r.ticker)))
    removed := prior.filter (fun p => !(latest.any (fun r => r.ticker == p.ticker)))
    changed := prior.filterMap (fun p =>
      match latest.find? (fun r => r.ticker == p.ticker) with
      | some r => if p.cik == r.cik && p.name == r.name then none else some (p, r)
      | none => none) }

/-- Embeds the body of `src/scripts/main.py`.  `stocklist.get_stock_list`,
`database.Database.read_db` and `stocklist.check_diff` live in files not
under `src/`; modelled from the spec: `get_stock_list` is the Normalizer
applied to the fetched raw batch (`get_cik`), `read_db` reads the persisted
snapshot (the `store` argument), `check_diff` is the Differ.  The script
computes and prints the diff; it performs no write to the database, so the
returned store is the one it started with. -/
def mainRun (store : List StockRecord) (rawBatch : List RawRecord) :
    Changeset × List StockRecord :=
  let latest_stock_list := get_cik rawBatch
  let old_stock_list := store
  let diff := check_diff old_stock_list latest_stock_list
  (diff, store)

/-- The `Database` of `scripts/database.py` (not under `src/`); modelled from
the spec as the Snapshot Store handle, carrying its constructor arguments. -/
structure Database where
  password : String
  db_name : String
  table_name : String
deriving DecidableEq, Repr

/-- Embeds `connect_db` of `src/scripts/connect.py`.  The YAML config read
and the `Database` constructor (in `scripts/database.py`, not under `src/`)
are abstracted by the constructor's outcome `ctor`: `Except.ok` when
`Database(mysql_pw, db_name, table_name)` returns, `Except.error` when it
raises.  The source's `except Exception as e: print(e)` prints the error and
falls off the end of the function, implicitly returning `None`. -/
def connect_db (ctor : Except String Database) : Option Database :=
  match ctor with
  | Except.ok db => some db
  | Except.error _ => none

/-- The `NotAvailable` exception of `financialdatapy/exception.py`. -/
structure NotAvailable where
deriving DecidableEq, Repr

/-- The outcome of `Market.financial_statement` when no exception is raised:
which collaborator branch ran.  The collaborators (`UsFinancials`,
`KorFinancials`, `CikList`, files not under `src/`) are abstracted as tags;
`open_report` returns `None` in the source, tagged here as the
`..OpenReport` outcomes. -/
inductive FinOutcome where
  | usStandard
  | usFinancials
  | usOpenReport
  | korStandard
  | korFinancials
  | korOpenReport
deriving DecidableEq, Repr

/-- The outcome of `Market.historical_price` when no exception is raised. -/
inductive PriceOutcome where
  | usMarket
  | korMarket
deriving DecidableEq, Repr

/-- The `Market` class of `src/financialdatapy/market.py`. -/
structure Market where
  country_code : String
deriving DecidableEq, Repr

/-- Embeds `Market.__init__`: stores the uppercased country code. -/
def Market.init (country_code : String) : Market :=
  { country_code := strUpper country_code }

/-- Embeds the dispatch of `Market.financial_statement`: branch on the
stored country code; raise `NotAvailable` otherwise.  The `symbol`,
`financial` and `period` arguments do not affect the dispatch and are
omitted; `type_of_financial` and `web` select the outcome inside a branch. -/
def Market.financial_statement (m : Market) (type_of_financial : Option String)
    (web : Bool) : Except NotAvailable FinOutcome :=
  if m.country_code = "USA" then
    if type_of_financial = some "standard" then Except.ok FinOutcome.usStandard
    else if !web then Except.ok FinOutcome.usFinancials
    else Except.ok FinOutcome.usOpenReport
  else if m.country_code = "KOR" then
    if type_of_financial = some "standard" then Except.ok FinOutcome.korStandard
    else if !web then Except.ok FinOutcome.korFinancials
    else Except.ok FinOutcome.korOpenReport
  else Except.error {}

/-- Embeds the dispatch of `Market.historical_price`: `UsMarket` for `USA`,
`KorMarket` for `KOR`, `NotAvailable` otherwise.  The `symbol`, `start` and
`end` arguments do not affect the dispatch and are omitted. -/
def Market.historical_price (m : Market) : Except NotAvailable PriceOutcome :=
  if m.country_code = "USA" then Except.ok PriceOutcome.usMarket
  else if m.country_code = "KOR" then Except.ok PriceOutcome.korMarket
  else Except.error {}

/-- A raw registry record in which the `name` and `exchange` fields may be
missing.  `pd.DataFrame(data, columns=fields)` fills a missing field with
`NaN`, modelled as `none`. -/
structure RawOptRecord where
  cik : Nat
  name : Option String
  ticker : String
  exchange : Option String
deriving DecidableEq, Repr

/-- Embeds `get_cik` on a batch in which a record may be missing its `name`
or `exchange` (`NaN` in the dataframe): `.str.upper()` leaves `NaN` as
`NaN` (`Option.map`); the exchange filter drops `NaN` rows (`NaN` equals
neither `'NASDAQ'` nor `'NYSE'`); the list comprehension
`[regex.sub('', x) for x in cik_list['name']]` raises `TypeError` on the
first `NaN` name, aborting the whole call, modelled as `Except.error`. -/
def get_cik_opt (batch : List RawOptRecord) : Except String (List StockRecord) :=
  let step1 := batch.map (fun r => { r with exchange := r.exchange.map strUpper })
  let step2 := step1.filter
    (fun r => r.exchange == some "NASDAQ" || r.exchange == some "NYSE")
  if step2.all (fun r => r.name.isSome) then
    Except.ok (step2.map (fun r =>
      { cik := toString r.cik
        name := capwords (regexSubName (r.name.getD ""))
        ticker := r.ticker }))
  else
    Except.error "TypeError: expected string or bytes-like object"

/-- Written from the claim's words, for comparison with the source's
`regexSubName`: remove a *suffix* of the name matching the pattern (an
optional single whitespace character, then `\` or `/`, then zero or more
letters, extending to the end of the string), leaving the rest intact. -/
def matchesToEnd : List Char → Bool
  | [] => false
  | c :: rest =>
    (slashChar c && rest.all asciiLetter) ||
      (wsChar c && (match rest with
        | d :: rest2 => slashChar d && rest2.all asciiLetter
        | [] => false))

/-- Written from the claim's words: drop the longest suffix of the string
matching the pattern (leftmost position from which the pattern matches
through to the end). -/
def stripSuffixChars : List Char → List Char
  | [] => []
  | c :: rest =>
    if matchesToEnd (c :: rest) then [] else c :: stripSuffixChars rest

/-- Written from the claim's words: name cleaning as the claim states it —
suffix removal only, then title case. -/
def nameCleanClaim (s : String) : String :=
  capwords (String.mk (stripSuffixChars s.data))

example : regexSubName "Qualcomm Inc\\De" = "Qualcomm Inc" := by decide
example : capwords "Qualcomm Inc" = "Qualcomm Inc" := by decide
example : capwords (regexSubName "A/B Corp") = "A Corp" := by decide
example : strUpper "nasdaq" = "NASDAQ" := by decide
example :
    get_cik [⟨1652044, "Qualcomm Inc\\De", "qcom", "nasdaq"⟩] =
      [⟨"1652044", "Qualcomm Inc", "qcom"⟩] := by decide
example :
    search_cik [⟨"320193", "Apple Inc.", "AAPL"⟩] "aapl" = some "0000320193" := by
  decide
example : nameCleanClaim "A/B Corp" = "A/b Corp" := by decide
example : nameCleanClaim "Qualcomm Inc\\De" = "Qualcomm Inc" := by decide
example :
    check_diff [] [⟨"1", "A", "T"⟩] = ⟨[⟨"1", "A", "T"⟩], [], []⟩ := by decide
example :
    (mainRun [] [⟨1652044, "Qualcomm Inc\\De", "qcom", "nasdaq"⟩]).2 = [] := by
  decide
example :
    (Market.init "usa").financial_statement none false =
      Except.ok FinOutcome.usFinancials := by rfl
example : (Market.init "Mex").historical_price = Except.error {} := by rfl
example :
    get_cik_opt [⟨1, none, "T", some "nasdaq"⟩, ⟨2, some "B", "U", some "NYSE"⟩] =
      Except.error "TypeError: expected string or bytes-like object" := by rfl
example : get_cik_opt [⟨1, some "A", "T", none⟩] = Except.ok [] := by rfl

/-! ## Helper lemmas -/

/-- The staged column pipeline of `get_cik` equals a single filter-then-map
over the raw batch. -/
theorem get_cik_eq (batch : List RawRecord) :
    get_cik batch = (batch.filter rawAllowed).map normRecord := by
  simp only [get_cik, List.filter_map, List.map_map]
  rfl

/-- In a list whose tickers are pairwise distinct, the first ticker match
for a member is the member itself. -/
theorem find_ticker_self_of_nodup {l : List StockRecord}
    (hnd : (l.map (fun r => r.ticker)).Nodup) {p : StockRecord} (hp : p ∈ l) :
    l.find? (fun r => r.ticker == p.ticker) = some p := by
  induction l with
  | nil => cases hp
  | cons h tail ih =>
    rw [List.map_cons, List.nodup_cons] at hnd
    rcases List.mem_cons.mp hp with rfl | hmem
    · simp [List.find?_cons]
    · have hne : h.ticker ≠ p.ticker := by
        intro he
        exact hnd.1 (he ▸ List.mem_map_of_mem (fun r => r.ticker) hmem)
      rw [List.find?_cons_of_neg _ (by simpa using hne)]
      exact ih hnd.2 hmem

/-! ## Claim C1 -/

/-- Claim C1, counterexample: `get_cik` does not zero-pad the `cik` column;
for Apple (source cik `320193`, NASDAQ) the normalized output carries the
string `"320193"`, of length 6, not 10. -/
theorem get_cik_no_padding_cex :
    (get_cik [⟨320193, "Apple Inc.", "AAPL", "Nasdaq"⟩]).map (fun r => r.cik) =
      ["320193"] ∧ ("320193" : String).length ≠ 10 := by decide

/-- Claim C1 (amended): `get_cik` stores `cik` as the plain decimal string,
unpadded; the 10-character zero-padding is applied by `search_cik` to the
single looked-up cik.  Whenever every cik string in the list is numeric with
at most 10 characters, a successful `search_cik` returns a string of exactly
10 digits obtained by left-padding a member's cik with `'0'`, restoring the
leading zeros lost in the source. -/
theorem search_cik_pads_cik (batch : List RawRecord) (cl : List StockRecord)
    (t s : String)
    (hlen : ∀ r, r ∈ cl → r.cik.length ≤ 10)
    (hdig : ∀ r, r ∈ cl → r.cik.data.all Char.isDigit = true)
    (hs : search_cik cl t = some s) :
    (get_cik batch).map (fun r => r.cik) =
      (batch.filter rawAllowed).map (fun r => toString r.cik) ∧
    s.length = 10 ∧ s.data.all Char.isDigit = true ∧
    ∃ r, r ∈ cl ∧
      s = String.mk (List.replicate (10 - r.cik.length) '0') ++ r.cik := by
  refine ⟨by rw [get_cik_eq, List.map_map]; rfl, ?_⟩
  simp only [search_cik] at hs
  split at hs
  next r heq =>
    have hr : r ∈ cl := by
      refine List.mem_of_mem_filter (p := fun x => x.ticker == strUpper t) ?_
      rw [heq]
      exact List.mem_cons_self r []
    have hseq : s = String.mk (List.replicate (10 - r.cik.length) '0') ++ r.cik := by
      simpa using hs.symm
    subst hseq
    refine ⟨?_, ?_, r, hr, rfl⟩
    · rw [String.length_append, String.length_mk, List.length_replicate]
      exact Nat.sub_add_cancel (hlen r hr)
    · rw [String.data_append, List.all_append]
      refine Bool.and_eq_true_iff.mpr ⟨?_, hdig r hr⟩
      simp only [List.all_eq_true, List.mem_replicate]
      intro c hc
      rw [hc.2]
      decide
  next h => exact absurd hs (by simp)

/-- Claim C1, witness: searching `"aapl"` in the normalized Apple batch
yields the padded 10-digit `"0000320193"`. -/
theorem search_cik_pads_cik_witness :
    (get_cik [⟨320193, "Apple Inc.", "AAPL", "Nasdaq"⟩]).map (fun r => r.cik) =
      ([⟨320193, "Apple Inc.", "AAPL", "Nasdaq"⟩].filter rawAllowed).map
        (fun r => toString r.cik) ∧
    ("0000320193" : String).length = 10 ∧
    ("0000320193" : String).data.all Char.isDigit = true ∧
    ∃ r, r ∈ get_cik [⟨320193, "Apple Inc.", "AAPL", "Nasdaq"⟩] ∧
      "0000320193" = String.mk (List.replicate (10 - r.cik.length) '0') ++ r.cik :=
  search_cik_pads_cik [⟨320193, "Apple Inc.", "AAPL", "Nasdaq"⟩]
    (get_cik [⟨320193, "Apple Inc.", "AAPL", "Nasdaq"⟩]) "aapl" "0000320193"
    (by decide) (by decide) (by decide)

/-! ## Claim C3 -/

/-- Claim C3, counterexample: `get_cik` performs no ticker deduplication;
two NASDAQ source records sharing the ticker `AAPL` both survive, so the
output tickers are not pairwise distinct. -/
theorem get_cik_duplicate_ticker_cex :
    (get_cik [⟨1, "A", "AAPL", "NASDAQ"⟩, ⟨2, "B", "AAPL", "NASDAQ"⟩]).map
        (fun r => r.ticker) = ["AAPL", "AAPL"] ∧
    ¬ ((get_cik [⟨1, "A", "AAPL", "NASDAQ"⟩, ⟨2, "B", "AAPL", "NASDAQ"⟩]).map
        (fun r => r.ticker)).Nodup := by decide

/-- Claim C3 (amended): `get_cik` neither deduplicates tickers nor applies a
last-seen-wins rule: the output tickers are exactly the tickers of the
exchange-filtered source rows, in order and with multiplicity, so the output
tickers are pairwise distinct precisely when the filtered source's are. -/
theorem get_cik_tickers_not_deduped (batch : List RawRecord) :
    (get_cik batch).map (fun r => r.ticker) =
      (batch.filter rawAllowed).map (fun r => r.ticker) ∧
    (((get_cik batch).map (fun r => r.ticker)).Nodup ↔
      ((batch.filter rawAllowed).map (fun r => r.ticker)).Nodup) := by
  have h : (get_cik batch).map (fun r => r.ticker) =
      (batch.filter rawAllowed).map (fun r => r.ticker) := by
    rw [get_cik_eq, List.map_map]; rfl
  exact ⟨h, by rw [h]⟩

/-! ## Claim C4 -/

/-- Claim C4, counterexample: `get_cik` does not uppercase tickers; a source
record with ticker `"qcom"` keeps `"qcom"` in the normalized output. -/
theorem get_cik_ticker_not_uppercased_cex :
    (get_cik [⟨1652044, "Qualcomm Inc\\De", "qcom", "nasdaq"⟩]).map
      (fun r => r.ticker) = ["qcom"] ∧ ("qcom" : String) ≠ "QCOM" := by decide

/-- Claim C4 (amended): the ticker of a surviving record is carried into the
normalized output unchanged, not uppercased; uppercasing happens only to the
query argument of `search_cik`. -/
theorem get_cik_ticker_unchanged (batch : List RawRecord) (r : RawRecord)
    (hmem : r ∈ batch) (hall : rawAllowed r = true) :
    normRecord r ∈ get_cik batch ∧ (normRecord r).ticker = r.ticker := by
  refine ⟨?_, rfl⟩
  rw [get_cik_eq]
  exact List.mem_map_of_mem normRecord (List.mem_filter.mpr ⟨hmem, hall⟩)

/-- Claim C4, witness: the lowercase-ticker Qualcomm record survives with its
ticker `"qcom"` unchanged. -/
theorem get_cik_ticker_unchanged_witness :
    normRecord ⟨1652044, "Qualcomm Inc\\De", "qcom", "nasdaq"⟩ ∈
      get_cik [⟨1652044, "Qualcomm Inc\\De", "qcom", "nasdaq"⟩] ∧
    (normRecord ⟨1652044, "Qualcomm Inc\\De", "qcom", "nasdaq"⟩).ticker =
      RawRecord.ticker ⟨1652044, "Qualcomm Inc\\De", "qcom", "nasdaq"⟩ :=
  get_cik_ticker_unchanged [⟨1652044, "Qualcomm Inc\\De", "qcom", "nasdaq"⟩]
    ⟨1652044, "Qualcomm Inc\\De", "qcom", "nasdaq"⟩ (by decide) (by decide)

/-! ## Claim C5 -/

/-- Claim C5: the normalized output consists exactly of the records whose
exchange, uppercased, is `NASDAQ` or `NYSE` (a case-insensitive allow-list
membership test), reshaped without the exchange field (`StockRecord` has no
exchange); a record whose uppercased exchange is `OTC` fails the filter and
is excluded entirely. -/
theorem get_cik_exchange_allowlist (batch : List RawRecord) (r : RawRecord)
    (hotc : strUpper r.exchange = "OTC") :
    get_cik batch = (batch.filter rawAllowed).map normRecord ∧
    rawAllowed r = false ∧ get_cik [r] = [] := by
  have hfalse : rawAllowed r = false := by
    simp [rawAllowed, hotc]
  refine ⟨get_cik_eq batch, hfalse, ?_⟩
  rw [get_cik_eq]
  simp [List.filter, hfalse]

/-- Claim C5, witness: a raw record with exchange `"OTC"` is excluded. -/
theorem get_cik_exchange_allowlist_witness :
    get_cik [⟨9, "Pink Co", "PNK", "OTC"⟩] =
      ([⟨9, "Pink Co", "PNK", "OTC"⟩].filter rawAllowed).map normRecord ∧
    rawAllowed ⟨9, "Pink Co", "PNK", "OTC"⟩ = false ∧
    get_cik [⟨9, "Pink Co", "PNK", "OTC"⟩] = [] :=
  get_cik_exchange_allowlist [⟨9, "Pink Co", "PNK", "OTC"⟩]
    ⟨9, "Pink Co", "PNK", "OTC"⟩ (by decide)

/-! ## Claim C6 -/

/-- Claim C6, counterexample: `re.sub` removes the pattern at *every*
occurrence of the name, not only as a suffix.  In `"A/B Corp"` the `/B` is
internal — no suffix of the string matches the pattern — yet `get_cik`
deletes it, producing `"A Corp"`, while suffix-only removal followed by
title case gives `"A/b Corp"`. -/
theorem get_cik_name_suffix_only_cex :
    (get_cik [⟨7, "A/B Corp", "ABC", "NYSE"⟩]).map (fun r => r.name) =
      ["A Corp"] ∧
    nameCleanClaim "A/B Corp" = "A/b Corp" ∧
    ("A Corp" : String) ≠ "A/b Corp" := by decide

/-- Claim C6 (amended): the output name of a surviving record equals the
source name with *every* (non-overlapping, leftmost-first) occurrence of the
pattern — an optional single whitespace character, then `\` or `/`, then a
greedy run of letters — removed, then rendered in title case; on a name
where the pattern occurs only as a suffix, such as `"Qualcomm Inc\De"`, this
agrees with the claim's suffix-only reading. -/
theorem get_cik_name_all_occurrences (batch : List RawRecord) (r : RawRecord)
    (hmem : r ∈ batch) (hall : rawAllowed r = true) :
    normRecord r ∈ get_cik batch ∧
    (normRecord r).name = capwords (regexSubName r.name) ∧
    capwords (regexSubName "Qualcomm Inc\\De") = "Qualcomm Inc" ∧
    nameCleanClaim "Qualcomm Inc\\De" = "Qualcomm Inc" := by
  refine ⟨?_, rfl, by decide, by decide⟩
  rw [get_cik_eq]
  exact List.mem_map_of_mem normRecord (List.mem_filter.mpr ⟨hmem, hall⟩)

/-- Claim C6, witness: the Qualcomm record normalizes with its name cleaned
to `"Qualcomm Inc"`. -/
theorem get_cik_name_all_occurrences_witness :
    normRecord ⟨1652044, "Qualcomm Inc\\De", "qcom", "nasdaq"⟩ ∈
      get_cik [⟨1652044, "Qualcomm Inc\\De", "qcom", "nasdaq"⟩] ∧
    (normRecord ⟨1652044, "Qualcomm Inc\\De", "qcom", "nasdaq"⟩).name =
      capwords (regexSubName (RawRecord.name ⟨1652044, "Qualcomm Inc\\De", "qcom", "nasdaq"⟩)) ∧
    capwords (regexSubName "Qualcomm Inc\\De") = "Qualcomm Inc" ∧
    nameCleanClaim "Qualcomm Inc\\De" = "Qualcomm Inc" :=
  get_cik_name_all_occurrences [⟨1652044, "Qualcomm Inc\\De", "qcom", "nasdaq"⟩]
    ⟨1652044, "Qualcomm Inc\\De", "qcom", "nasdaq"⟩ (by decide) (by decide)

/-! ## Claim C7 -/

/-- Claim C7: diffing a canonical listing against itself — canonical
meaning the spec's invariant holds, tickers pairwise distinct — yields the
empty changeset: nothing added, nothing removed, nothing changed. -/
theorem check_diff_self_empty (X : List StockRecord)
    (hnd : (X.map (fun r => r.ticker)).Nodup) :
    check_diff X X = ⟨[], [], []⟩ := by
  unfold check_diff
  have hadded : X.filter (fun r => !(X.any (fun p => p.ticker == r.ticker))) = [] := by
    refine List.filter_eq_nil_iff.mpr ?_
    intro r hr
    simp only [Bool.not_eq_true', Bool.not_eq_false, List.any_eq_true]
    exact ⟨r, hr, by simp⟩
  have hchanged : X.filterMap (fun p =>
      match X.find? (fun r => r.ticker == p.ticker) with
      | some r => if p.cik == r.cik && p.name == r.name then none else some (p, r)
      | none => none) = [] := by
    refine List.filterMap_eq_nil_iff.mpr ?_
    intro p hp
    rw [find_ticker_self_of_nodup hnd hp]
    simp
  rw [hadded, hchanged]

/-- Claim C7, witness: diffing the one-record Apple listing against itself
is empty. -/
theorem check_diff_self_empty_witness :
    check_diff [⟨"0000320193", "Apple Inc", "AAPL"⟩]
      [⟨"0000320193", "Apple Inc", "AAPL"⟩] = ⟨[], [], []⟩ :=
  check_diff_self_empty [⟨"0000320193", "Apple Inc", "AAPL"⟩] (by decide)

/-! ## Claim C2 -/

/-- Claim C2, counterexample: the `main.py` pipeline does not persist the
new listing.  Starting from an empty snapshot store with a nonempty raw
batch, the store after the run is still empty, not the normalized batch. -/
theorem mainRun_no_persist_cex :
    (mainRun [] [⟨1652044, "Qualcomm Inc\\De", "QCOM", "NASDAQ"⟩]).2 = [] ∧
    get_cik [⟨1652044, "Qualcomm Inc\\De", "QCOM", "NASDAQ"⟩] ≠ [] := by decide

/-- Claim C2 (amended): the pipeline returns (prints) the changeset of the
stored snapshot against the freshly normalized batch, and in particular on
an empty snapshot store the changeset's `added` is the entire normalized
batch with `removed` and `changed` empty; but it performs no persistence —
the snapshot store is returned unchanged, the normalized batch is not
written back. -/
theorem mainRun_returns_diff_no_persist (store : List StockRecord)
    (rawBatch : List RawRecord) :
    (mainRun store rawBatch).1 = check_diff store (get_cik rawBatch) ∧
    (mainRun store rawBatch).2 = store ∧
    (mainRun [] rawBatch).1.added = get_cik rawBatch ∧
    (mainRun [] rawBatch).1.removed = [] ∧
    (mainRun [] rawBatch).1.changed = [] := by
  refine ⟨rfl, rfl, ?_, rfl, rfl⟩
  show (get_cik rawBatch).filter
      (fun r => !(List.any ([] : List StockRecord) (fun p => p.ticker == r.ticker))) =
    get_cik rawBatch
  simp

/-! ## Claim C8 -/

/-- Claim C8, counterexample: a batch holding a well-formed NYSE record and
a NASDAQ record missing its `name` is not normalized to the well-formed
remainder — the whole call fails with the `TypeError` raised by
`regex.sub` on `NaN`, so the rest of the batch is not processed. -/
theorem get_cik_opt_missing_name_cex :
    get_cik_opt [⟨1, some "Good Co", "GOOD", some "NYSE"⟩,
        ⟨2, none, "BADD", some "NASDAQ"⟩] =
      Except.error "TypeError: expected string or bytes-like object" ∧
    (Except.error "TypeError: expected string or bytes-like object" :
        Except String (List StockRecord)) ≠
      Except.ok [({ cik := "1", name := "Good Co", ticker := "GOOD" } : StockRecord)] := by
  exact ⟨rfl, fun h => Except.noConfusion h⟩

/-- Claim C8 (amended): `get_cik` has no per-record `MalformedRecord`
signal.  A record missing its `exchange` is silently excluded by the
exchange filter — prepending it to any batch leaves the result unchanged,
with no warning recorded — while a record whose exchange passes the filter
but whose `name` is missing makes the entire normalization fail, the rest
of the batch unprocessed. -/
theorem get_cik_opt_no_per_record_handling (batch : List RawOptRecord)
    (c : Nat) (n : Option String) (t : String) :
    get_cik_opt ({ cik := c, name := n, ticker := t, exchange := none } :: batch) =
      get_cik_opt batch ∧
    get_cik_opt ({ cik := c, name := none, ticker := t, exchange := some "NASDAQ" } :: batch) =
      Except.error "TypeError: expected string or bytes-like object" := by
  constructor
  · simp [get_cik_opt]
  · have hup : strUpper "NASDAQ" = "NASDAQ" := by decide
    simp [get_cik_opt, hup]

/-! ## Claim C9 -/

/-- Claim C9: when the `Database` construction fails, `connect_db` does not
surface the failure — it prints the exception and implicitly returns
`None`; on success it returns the database handle. -/
theorem connect_db_swallows (e : String) (db : Database) :
    connect_db (Except.error e) = none ∧ connect_db (Except.ok db) = some db :=
  ⟨rfl, rfl⟩

/-! ## Claim C10 -/

/-- Claim C10: for a country code whose uppercase form is neither `USA` nor
`KOR`, both `Market.financial_statement` and `Market.historical_price`
raise `NotAvailable` (and hence return no data); for country codes
uppercasing to `USA` or `KOR` — any letter case of them — the
`NotAvailable` branch is never taken. -/
theorem market_not_available_iff (country_code : String)
    (type_of_financial : Option String) (web : Bool) :
    ((Market.init country_code).financial_statement type_of_financial web =
        Except.error {} ↔
      strUpper country_code ≠ "USA" ∧ strUpper country_code ≠ "KOR") ∧
    ((Market.init country_code).historical_price = Except.error {} ↔
      strUpper country_code ≠ "USA" ∧ strUpper country_code ≠ "KOR") := by
  have hcc : (Market.init country_code).country_code = strUpper country_code := rfl
  by_cases h1 : strUpper country_code = "USA"
  · have hf : (Market.init country_code).financial_statement type_of_financial web ≠
        Except.error {} := by
      unfold Market.financial_statement
      rw [hcc, if_pos h1]
      split
      · exact fun h => Except.noConfusion h
      · split
        · exact fun h => Except.noConfusion h
        · exact fun h => Except.noConfusion h
    have hp : (Market.init country_code).historical_price ≠ Except.error {} := by
      unfold Market.historical_price
      rw [hcc, if_pos h1]
      exact fun h => Except.noConfusion h
    exact ⟨⟨fun hc => absurd hc hf, fun hk => absurd h1 hk.1⟩,
      ⟨fun hc => absurd hc hp, fun hk => absurd h1 hk.1⟩⟩
  · by_cases h2 : strUpper country_code = "KOR"
    · have hf : (Market.init country_code).financial_statement type_of_financial web ≠
          Except.error {} := by
        unfold Market.financial_statement
        rw [hcc, if_neg h1, if_pos h2]
        split
        · exact fun h => Except.noConfusion h
        · split
          · exact fun h => Except.noConfusion h
          · exact fun h => Except.noConfusion h
      have hp : (Market.init country_code).historical_price ≠ Except.error {} := by
        unfold Market.historical_price
        rw [hcc, if_neg h1, if_pos h2]
        exact fun h => Except.noConfusion h
      exact ⟨⟨fun hc => absurd hc hf, fun hk => absurd h2 hk.2⟩,
        ⟨fun hc => absurd hc hp, fun hk => absurd h2 hk.2⟩⟩
    · have hf : (Market.init country_code).financial_statement type_of_financial web =
          Except.error {} := by
        unfold Market.financial_statement
        rw [hcc, if_neg h1, if_neg h2]
      have hp : (Market.init country_code).historical_price = Except.error {} := by
        unfold Market.historical_price
        rw [hcc, if_neg h1, if_neg h2]
      exact ⟨⟨fun _ => ⟨h1, h2⟩, fun _ => hf⟩, ⟨fun _ => ⟨h1, h2⟩, fun _ => hp⟩⟩
